import Mathlib

/-!
Shallow embedding of `src/defk.py`: a decorator adapting a multi-parameter
Python function into a function of a single dict argument.

Python values flowing through the adapter are modelled by `Value`; a Python
dict is an association list with unique keys (`Map`), looked up first-match.
The introspected shape returned by `inspect.getargspec` is `ArgSpec`
(fields `args`, `varargs`, `keywords`, `defaults`).  The inner wrapper `F`
(source lines 90-114) is modelled by `Defk.F`; the per-parameter resolution
step of its loop body (lines 93-107) by `resolveOne`/`bindGo`; the
constructor `defk` (lines 77-121) by `Defk.defk`, whose possible outcomes
are `ConstructResult`.  Errors the Python code can raise at call time are
`PyErr`: `KeyError` re-raised at line 107, and the `IndexError` that tuple
indexing at line 104 would raise if `defaults` were longer than `args`.
-/

namespace Defk

/-- A Python value: integers, strings, lists and dicts suffice for the
adapter, which treats mapping values opaquely. -/
inductive Value where
  | vint : Int → Value
  | vstr : String → Value
  | vlist : List Value → Value
  | vdict : List (String × Value) → Value

/-- A Python dict with string keys: an association list, keys unique,
insertion order preserved. -/
abbrev Map := List (String × Value)

/-- Dict lookup `d[x]`: first matching key. -/
def dlookup : Map → String → Option Value
  | [], _ => none
  | (k, v) :: rest, x => if k == x then some v else dlookup rest x

/-- The result of `inspect.getargspec` on the target function:
named parameters in declared order, the optional `*args` name, the
optional `**kwargs` name, and the defaults (aligned to the last
`defaults.length` entries of `args`). -/
structure ArgSpec where
  args : List String
  varargs : Option String
  keywords : Option String
  defaults : List Value

/-- The semantics of a target function: it receives the positional
arguments and (when called with a keyword splat) the keyword dict. -/
abbrev TargetFn := List Value → Map → Value

/-- Errors the wrapper can raise at invocation time. -/
inductive PyErr where
  | keyError : String → PyErr
  | indexError : PyErr
deriving DecidableEq

/-- Python truthiness of an optional string (`None` and `''` are falsy). -/
def truthy : Option String → Bool
  | none => false
  | some s => !(s == "")

/-- The test `_as and x == _as` guarding the alias branch (line 94). -/
def aliasMatches (asName : Option String) (x : String) : Bool :=
  match asName with
  | none => false
  | some a => !(a == "") && (x == a)

/-- One iteration of the binding loop of `F` (lines 93-107) for parameter
`x` at position `i`: alias check, then `d[x]`, then default fallback
(`defaults[i - db]`) or re-raised `KeyError`. -/
def resolveOne (asName : Option String) (d : Map) (defaults : List Value)
    (db : Nat) (i : Nat) (x : String) : Except PyErr Value :=
  if aliasMatches asName x then Except.ok (Value.vdict d)
  else
    match dlookup d x with
    | some v => Except.ok v
    | none =>
      if db ≤ i then
        match defaults[i - db]? with
        | some dv => Except.ok dv
        | none => Except.error PyErr.indexError
      else Except.error (PyErr.keyError x)

/-- The binding loop of `F`: resolve each parameter in declaration order,
accumulating the positional argument list, aborting on the first error. -/
def bindGo (asName : Option String) (d : Map) (defaults : List Value)
    (db : Nat) : Nat → List String → Except PyErr (List Value)
  | _, [] => Except.ok []
  | i, x :: ks =>
    match resolveOne asName d defaults db i x with
    | Except.error e => Except.error e
    | Except.ok v =>
      match bindGo asName d defaults db (i + 1) ks with
      | Except.error e => Except.error e
      | Except.ok vs => Except.ok (v :: vs)

/-- The remainder dict `{k: v for k, v in items(d) if k not in keys}`
(lines 110-111). -/
def remainder (keys : List String) (d : Map) : Map :=
  d.filter (fun kv => !(keys.contains kv.1))

/-- The closure state captured by the wrapper `F`: the memoized signature
data (`keys`, `defaults`, `splat`) and the configured alias name. -/
structure Wrapped where
  keys : List String
  defaults : List Value
  splat : Option String
  asName : Option String

/-- The wrapper `F(d)` (lines 90-114): run the binding loop with
`defaults_begin = len(keys) - len(defaults)`; on success call the target
with the positional arguments and, if a keyword-splat parameter exists,
the remainder dict as keyword arguments. -/
def F (w : Wrapped) (f : TargetFn) (d : Map) : Except PyErr Value :=
  match bindGo w.asName d w.defaults (w.keys.length - w.defaults.length) 0 w.keys with
  | Except.error e => Except.error e
  | Except.ok args =>
    if truthy w.splat then Except.ok (f args (remainder w.keys d))
    else Except.ok (f args [])

/-- `decorator(f)` (lines 81-116): introspect the target and build the
wrapper's closure state.  The body reads only `args`, `defaults` and
`keywords` from the argspec; `varargs` is never consulted. -/
def applyDecorator (asName : Option String) (spec : ArgSpec) : Wrapped :=
  { keys := spec.args, defaults := spec.defaults
    splat := spec.keywords, asName := asName }

/-- The single argument of `defk`: either a callable (represented by its
introspected argspec) or a string. -/
inductive DefkArg where
  | func : ArgSpec → DefkArg
  | str : String → DefkArg

/-- What `defk(...)` returns (lines 77-121): a decorator awaiting the
target (string argument, truthy), the directly wrapped function (callable
argument), or the `UnboundLocalError` hit when a falsy string makes the
`decorator(f)` branch read the never-assigned local `f`. -/
inductive ConstructResult where
  | awaiting : String → ConstructResult
  | wrapped : Wrapped → ConstructResult
  | unboundLocalError : ConstructResult

/-- `defk(_as)`: a non-string argument is the target itself (`_as` reset to
`None`); then `if _as:` selects between returning `decorator` and applying
it to `f` — which is unbound when the argument was a string. -/
def defk : DefkArg → ConstructResult
  | DefkArg.func spec => ConstructResult.wrapped (applyDecorator none spec)
  | DefkArg.str s =>
    if s == "" then ConstructResult.unboundLocalError
    else ConstructResult.awaiting s

/-- Values of the mapping at the given keys, in order; `none` when some
key is absent.  Used to state claims about fully-populated mappings. -/
def lookupAll (d : Map) : List String → Option (List Value)
  | [] => some []
  | x :: ks =>
    match dlookup d x, lookupAll d ks with
    | some v, some vs => some (v :: vs)
    | _, _ => none

/-- The first parameter, in declaration order starting at position `i`,
that is required (position below `db`), is not the alias, and is absent
from the mapping.  Used to state the `MissingKey` claim. -/
def firstMissingReq (asName : Option String) (d : Map) (db : Nat) :
    Nat → List String → Option String
  | _, [] => none
  | i, x :: ks =>
    if !(aliasMatches asName x) && (dlookup d x).isNone && decide (i < db)
    then some x
    else firstMissingReq asName d db (i + 1) ks

/-- Characterization of a successful run of the binding loop: the argument
list has one entry per parameter, and the entry at each position is the one
`resolveOne` computes for that parameter at its position. -/
theorem bindGo_ok_spec (asName : Option String) (d : Map) (defaults : List Value)
    (db : Nat) :
    ∀ (ks : List String) (i₀ : Nat) (vals : List Value),
      bindGo asName d defaults db i₀ ks = Except.ok vals →
      vals.length = ks.length ∧
      ∀ j x, ks[j]? = some x →
        ∃ v, vals[j]? = some v ∧
          resolveOne asName d defaults db (i₀ + j) x = Except.ok v := by
  intro ks
  induction ks with
  | nil =>
    intro i₀ vals h
    simp only [bindGo] at h
    cases h
    refine ⟨rfl, ?_⟩
    intro j x hj
    simp at hj
  | cons x ks ih =>
    intro i₀ vals h
    simp only [bindGo] at h
    cases hr : resolveOne asName d defaults db i₀ x with
    | error e => rw [hr] at h; cases h
    | ok v =>
      rw [hr] at h
      cases hb : bindGo asName d defaults db (i₀ + 1) ks with
      | error e => rw [hb] at h; cases h
      | ok vs =>
        rw [hb] at h
        cases h
        obtain ⟨hlen, hget⟩ := ih (i₀ + 1) vs hb
        refine ⟨by simp [hlen], ?_⟩
        intro j y hj
        cases j with
        | zero =>
          simp only [List.getElem?_cons_zero, Option.some.injEq] at hj
          subst hj
          exact ⟨v, by simp, by simpa using hr⟩
        | succ n =>
          simp only [List.getElem?_cons_succ] at hj
          obtain ⟨w, hw1, hw2⟩ := hget n y hj
          refine ⟨w, by simpa using hw1, ?_⟩
          have hn : i₀ + (n + 1) = (i₀ + 1) + n := by omega
          rw [hn]
          exact hw2

/-- When every parameter name is present in the mapping and no alias is
configured, the binding loop succeeds with exactly the mapping's values in
declared order, whatever the defaults. -/
theorem bindGo_of_lookupAll (d : Map) (defaults : List Value) (db : Nat) :
    ∀ (ks : List String) (i : Nat) (vals : List Value),
      lookupAll d ks = some vals →
      bindGo none d defaults db i ks = Except.ok vals := by
  intro ks
  induction ks with
  | nil =>
    intro i vals h
    simp only [lookupAll] at h
    cases h
    rfl
  | cons x ks ih =>
    intro i vals h
    simp only [lookupAll] at h
    cases hx : dlookup d x with
    | none => rw [hx] at h; cases h
    | some v =>
      rw [hx] at h
      cases hk : lookupAll d ks with
      | none => rw [hk] at h; cases h
      | some vs =>
        rw [hk] at h
        cases h
        simp only [bindGo, resolveOne, aliasMatches]
        rw [hx]
        simp [ih (i + 1) vs hk]

/-- C1: for a target whose parameters are all required (no defaults, no
remainder parameter) wrapped by bare `defk`, a mapping containing every
parameter name yields exactly the direct call on the mapping's values in
declared order. -/
theorem c1_all_required (spec : ArgSpec) (f : TargetFn) (d : Map)
    (vals : List Value) (w : Wrapped)
    (hw : defk (DefkArg.func spec) = ConstructResult.wrapped w)
    (hdef : spec.defaults = [])
    (hsplat : spec.keywords = none)
    (hvals : lookupAll d spec.args = some vals) :
    F w f d = Except.ok (f vals []) := by
  have hw' : w = applyDecorator none spec := by
    cases hw
    rfl
  subst hw'
  simp only [F, applyDecorator]
  rw [hdef, hsplat, bindGo_of_lookupAll d [] (spec.args.length - List.length []) spec.args 0 vals hvals]
  rfl

/-- Witness for C1: `def f(a, c)` wrapped bare, mapping `{a:1, c:5}`. -/
theorem c1_witness :
    F (applyDecorator none ⟨["a", "c"], none, none, []⟩)
        (fun args _ => Value.vlist args)
        [("a", Value.vint 1), ("c", Value.vint 5)] =
      Except.ok (Value.vlist [Value.vint 1, Value.vint 5]) :=
  c1_all_required ⟨["a", "c"], none, none, []⟩ (fun args _ => Value.vlist args)
    [("a", Value.vint 1), ("c", Value.vint 5)]
    [Value.vint 1, Value.vint 5] _ rfl rfl rfl rfl

/-- When some parameter from position `i₀` on is required, not the alias,
and absent from the mapping — and defaults indexing stays in range up to
there — the binding loop aborts with `KeyError` on the first such
parameter. -/
theorem bindGo_error_first (asName : Option String) (d : Map)
    (defaults : List Value) (db : Nat) :
    ∀ (ks : List String) (i₀ : Nat) (x₀ : String),
      (∀ j, j < ks.length → db ≤ i₀ + j → i₀ + j - db < defaults.length) →
      firstMissingReq asName d db i₀ ks = some x₀ →
      bindGo asName d defaults db i₀ ks = Except.error (PyErr.keyError x₀) := by
  intro ks
  induction ks with
  | nil =>
    intro i₀ x₀ _ h
    simp only [firstMissingReq] at h
    cases h
  | cons x ks ih =>
    intro i₀ x₀ hrange h
    simp only [firstMissingReq] at h
    by_cases hc :
        (!(aliasMatches asName x) && (dlookup d x).isNone && decide (i₀ < db)) = true
    · rw [if_pos hc] at h
      cases h
      obtain ⟨⟨hna, hnone⟩, hlt⟩ := by simpa using hc
      simp only [bindGo, resolveOne]
      rw [hna, hnone]
      simp [show ¬ db ≤ i₀ from by omega]
    · rw [if_neg hc] at h
      have hrec : bindGo asName d defaults db (i₀ + 1) ks =
          Except.error (PyErr.keyError x₀) := by
        refine ih (i₀ + 1) x₀ ?_ h
        intro j hj hdb
        have := hrange (j + 1) (by simpa using Nat.succ_lt_succ hj) (by omega)
        omega
      simp only [bindGo, resolveOne]
      by_cases ha : aliasMatches asName x = true
      · rw [if_pos ha, hrec]
      · rw [if_neg ha]
        cases hx : dlookup d x with
        | some v => rw [hrec]
        | none =>
          have hge : db ≤ i₀ := by
            by_contra hlt
            apply hc
            simp [ha, hx]
            omega
          rw [if_pos hge]
          have hidx : i₀ - db < defaults.length := by
            have := hrange 0 (by simp) (by omega)
            simpa using this
          cases hdv : defaults[i₀ - db]? with
          | none =>
            rw [List.getElem?_eq_none_iff] at hdv
            omega
          | some dv => rw [hrec]

/-- C2: when some required (non-defaulted, non-alias) parameter has no key
in the mapping, the wrapper fails with `KeyError` naming the first such
parameter in declaration order.  The result does not mention `f`, which is
universally quantified: the target function is never invoked, and no later
parameter can influence the outcome. -/
theorem c2_missing_key_first (spec : ArgSpec) (asName : Option String)
    (f : TargetFn) (d : Map) (x₀ : String)
    (hlen : spec.defaults.length ≤ spec.args.length)
    (hfirst : firstMissingReq asName d
        (spec.args.length - spec.defaults.length) 0 spec.args = some x₀) :
    F (applyDecorator asName spec) f d = Except.error (PyErr.keyError x₀) := by
  simp only [F, applyDecorator]
  rw [bindGo_error_first asName d spec.defaults
    (spec.args.length - spec.defaults.length) spec.args 0 x₀
    (by intro j hj hdb; omega) hfirst]

/-- Witness for C2: `def f(x, y)` wrapped bare, mapping `{x:1}` — the call
fails with `KeyError('y')`. -/
theorem c2_witness :
    F (applyDecorator none ⟨["x", "y"], none, none, []⟩)
        (fun args _ => Value.vlist args) [("x", Value.vint 1)] =
      Except.error (PyErr.keyError "y") :=
  c2_missing_key_first ⟨["x", "y"], none, none, []⟩ none
    (fun args _ => Value.vlist args) [("x", Value.vint 1)] "y"
    (by decide) rfl

/-- The argspec of `def f(x, *a): ...` — a function with a variadic
positional parameter. -/
def varargsSpec : ArgSpec :=
  { args := ["x"], varargs := some "a", keywords := none, defaults := [] }

/-- Counterexample to C3: adapting a function that declares `*a` does NOT
fail at construction time — `decorator` never reads `argspec.varargs` and
there is no `UnsupportedSignature` anywhere in the code — and the
resulting wrapper even invokes the target successfully. -/
theorem c3_counterexample :
    defk (DefkArg.func varargsSpec) =
      ConstructResult.wrapped (applyDecorator none varargsSpec) ∧
    F (applyDecorator none varargsSpec) (fun args _ => Value.vlist args)
        [("x", Value.vint 3)] =
      Except.ok (Value.vlist [Value.vint 3]) :=
  ⟨rfl, rfl⟩

/-- C3 amended: adaptation of a function with a variadic positional
parameter succeeds — `defk` returns a wrapper, and the wrapper's behavior
is identical to that of the same function without the varargs declaration,
because the varargs field is never consulted. -/
theorem c3_amended_varargs_ignored (spec : ArgSpec) (va : Option String)
    (f : TargetFn) (d : Map) :
    defk (DefkArg.func spec) = ConstructResult.wrapped (applyDecorator none spec) ∧
    F (applyDecorator none { spec with varargs := va }) f d =
      F (applyDecorator none spec) f d :=
  ⟨rfl, rfl⟩

/-- C4: for a defaulted parameter `P` (position at or past
`defaults_begin`) that is not the alias, a successful binding run binds
position `i` to the mapping's value when the key is present and to the
declared default `defaults[i - defaults_begin]` when absent; the wrapper
passes exactly this argument list to the target. -/
theorem c4_default_binding (keys : List String) (defaults : List Value)
    (splat : Option String) (asName : Option String) (f : TargetFn) (d : Map)
    (vals : List Value) (i : Nat) (P : String) (v : Value)
    (hbind : bindGo asName d defaults (keys.length - defaults.length) 0 keys =
      Except.ok vals)
    (hP : keys[i]? = some P)
    (hdefed : keys.length - defaults.length ≤ i)
    (halias : aliasMatches asName P = false) :
    (dlookup d P = none →
      vals[i]? = defaults[i - (keys.length - defaults.length)]?) ∧
    (dlookup d P = some v → vals[i]? = some v) ∧
    F { keys := keys, defaults := defaults, splat := splat, asName := asName } f d =
      Except.ok (f vals (if truthy splat then remainder keys d else [])) := by
  obtain ⟨-, hget⟩ := bindGo_ok_spec asName d defaults
    (keys.length - defaults.length) keys 0 vals hbind
  obtain ⟨u, hu1, hu2⟩ := hget i P hP
  simp only [Nat.zero_add] at hu2
  rw [resolveOne, halias] at hu2
  simp only [Bool.false_eq_true, if_false] at hu2
  refine ⟨?_, ?_, ?_⟩
  · intro hnone
    rw [hnone] at hu2
    rw [if_pos hdefed] at hu2
    cases hdv : defaults[i - (keys.length - defaults.length)]? with
    | none => rw [hdv] at hu2; cases hu2
    | some dv =>
      rw [hdv] at hu2
      cases hu2
      rw [hu1]
  · intro hsome
    rw [hsome] at hu2
    cases hu2
    exact hu1
  · simp only [F]
    rw [hbind]
    cases hs : truthy splat <;> simp

/-- Witness for C4: `def f(x, z=10)` wrapped bare, mapping `{x:1}` — the
defaulted parameter `z` is absent and binds to `10`; the wrapper calls the
target on `[1, 10]`. -/
theorem c4_witness :
    (dlookup [("x", Value.vint 1)] "z" = none →
      ([Value.vint 1, Value.vint 10] : List Value)[1]? =
        ([Value.vint 10] :
          List Value)[1 - (["x", "z"].length - [Value.vint 10].length)]?) ∧
    (dlookup [("x", Value.vint 1)] "z" = some (Value.vint 99) →
      ([Value.vint 1, Value.vint 10] : List Value)[1]? = some (Value.vint 99)) ∧
    F { keys := ["x", "z"], defaults := [Value.vint 10], splat := none,
        asName := none }
        (fun args _ => Value.vlist args) [("x", Value.vint 1)] =
      Except.ok (Value.vlist [Value.vint 1, Value.vint 10]) := by
  have h := c4_default_binding ["x", "z"] [Value.vint 10] none none
    (fun args _ => Value.vlist args) [("x", Value.vint 1)]
    [Value.vint 1, Value.vint 10] 1 "z" (Value.vint 99)
    rfl rfl (by decide) rfl
  exact ⟨h.1, h.2.1, h.2.2⟩

/-- C5: with a configured (non-empty) alias name `a`, a successful binding
run binds the parameter named `a` to the entire input mapping — whatever
value, if any, the mapping holds under the key `a` — while every other
parameter `x` is resolved by key lookup on its own name with default
fallback. -/
theorem c5_alias_whole_mapping (keys : List String) (defaults : List Value)
    (a : String) (d : Map) (vals : List Value) (i j : Nat) (x : String)
    (v : Value)
    (ha : ¬(a = ""))
    (hbind : bindGo (some a) d defaults (keys.length - defaults.length) 0 keys =
      Except.ok vals)
    (hi : keys[i]? = some a)
    (hj : keys[j]? = some x)
    (hx : ¬(x = a)) :
    vals[i]? = some (Value.vdict d) ∧
    (dlookup d x = some v → vals[j]? = some v) ∧
    (dlookup d x = none → keys.length - defaults.length ≤ j →
      vals[j]? = defaults[j - (keys.length - defaults.length)]?) := by
  obtain ⟨-, hget⟩ := bindGo_ok_spec (some a) d defaults
    (keys.length - defaults.length) keys 0 vals hbind
  have halias : aliasMatches (some a) x = false := by
    simp [aliasMatches, hx]
  have haliasA : aliasMatches (some a) a = true := by
    simp [aliasMatches]
    exact ha
  refine ⟨?_, ?_, ?_⟩
  · obtain ⟨u, hu1, hu2⟩ := hget i a hi
    rw [resolveOne, haliasA] at hu2
    simp only [if_true] at hu2
    cases hu2
    exact hu1
  · intro hsome
    obtain ⟨u, hu1, hu2⟩ := hget j x hj
    rw [resolveOne, halias] at hu2
    simp only [Bool.false_eq_true, if_false] at hu2
    rw [hsome] at hu2
    cases hu2
    exact hu1
  · intro hnone hdefed
    obtain ⟨u, hu1, hu2⟩ := hget j x hj
    rw [resolveOne, halias] at hu2
    simp only [Bool.false_eq_true, if_false] at hu2
    rw [hnone] at hu2
    simp only [Nat.zero_add] at hu2
    rw [if_pos hdefed] at hu2
    cases hdv : defaults[j - (keys.length - defaults.length)]? with
    | none => rw [hdv] at hu2; cases hu2
    | some dv =>
      rw [hdv] at hu2
      cases hu2
      rw [hu1]

/-- Witness for C5: `def f(x, z)` adapted with alias `'z'`, mapping
`{x:1, z:7}` — `z` receives the whole mapping, not the value `7` stored
under the key `'z'`; `x` is looked up normally. -/
theorem c5_witness :
    ([Value.vint 1,
        Value.vdict [("x", Value.vint 1), ("z", Value.vint 7)]] :
          List Value)[1]? =
      some (Value.vdict [("x", Value.vint 1), ("z", Value.vint 7)]) ∧
    (dlookup [("x", Value.vint 1), ("z", Value.vint 7)] "x" = some (Value.vint 1) →
      ([Value.vint 1,
          Value.vdict [("x", Value.vint 1), ("z", Value.vint 7)]] :
            List Value)[0]? = some (Value.vint 1)) := by
  have h := c5_alias_whole_mapping ["x", "z"] [] "z"
    [("x", Value.vint 1), ("z", Value.vint 7)]
    [Value.vint 1, Value.vdict [("x", Value.vint 1), ("z", Value.vint 7)]]
    1 0 "x" (Value.vint 1) (by decide) rfl rfl rfl (by decide)
  exact ⟨h.1, h.2.1⟩

/-- C6: for a target with a keyword-splat parameter, a successful
invocation passes the target exactly `remainder keys d`, and a pair of the
mapping lies in that remainder exactly when its key equals no declared
parameter name — the alias name and defaulted parameters' names are
declared names, hence excluded, and every other pair of the mapping is
included. -/
theorem c6_remainder_subtraction (keys : List String) (defaults : List Value)
    (splat : String) (asName : Option String) (d : Map) (vals : List Value)
    (f : TargetFn) (k : String) (v : Value)
    (hsplat : ¬(splat = ""))
    (hbind : bindGo asName d defaults (keys.length - defaults.length) 0 keys =
      Except.ok vals) :
    F { keys := keys, defaults := defaults, splat := some splat,
        asName := asName } f d =
      Except.ok (f vals (remainder keys d)) ∧
    ((k, v) ∈ remainder keys d ↔ (k, v) ∈ d ∧ ¬ k ∈ keys) := by
  constructor
  · simp only [F]
    rw [hbind]
    simp [truthy, hsplat]
  · simp [remainder, List.mem_filter]

/-- Witness for C6: `def f(x, **k)` wrapped bare, mapping `{x:1, y:2}` —
the target receives `k = {y:2}`; `('y', 2)` is in the remainder because
`'y'` is not a declared parameter name. -/
theorem c6_witness :
    F { keys := ["x"], defaults := [], splat := some "k", asName := none }
        (fun args rest => Value.vlist [Value.vlist args, Value.vdict rest])
        [("x", Value.vint 1), ("y", Value.vint 2)] =
      Except.ok (Value.vlist [Value.vlist [Value.vint 1],
        Value.vdict [("y", Value.vint 2)]]) ∧
    (("y", Value.vint 2) ∈
        remainder ["x"] [("x", Value.vint 1), ("y", Value.vint 2)] ↔
      ("y", Value.vint 2) ∈
          ([("x", Value.vint 1), ("y", Value.vint 2)] : Map) ∧
        ¬ "y" ∈ ["x"]) :=
  c6_remainder_subtraction ["x"] [] "k" none
    [("x", Value.vint 1), ("y", Value.vint 2)] [Value.vint 1]
    (fun args rest => Value.vlist [Value.vlist args, Value.vdict rest])
    "y" (Value.vint 2) (by decide) rfl

/-- State-passing view of the dict access `d[x]`: the only operations the
wrapper performs on the input dict are this lookup and the `items`
iteration, both reads, so each returns the dict unchanged. -/
def dictGetS (d : Map) (x : String) : Option Value × Map :=
  (dlookup d x, d)

/-- State-passing view of one binding-loop iteration, threading the input
dict through every access. -/
def resolveOneS (asName : Option String) (defaults : List Value) (db : Nat)
    (i : Nat) (x : String) (d : Map) : Except PyErr Value × Map :=
  if aliasMatches asName x then (Except.ok (Value.vdict d), d)
  else
    match dictGetS d x with
    | (some v, d1) => (Except.ok v, d1)
    | (none, d1) =>
      if db ≤ i then
        match defaults[i - db]? with
        | some dv => (Except.ok dv, d1)
        | none => (Except.error PyErr.indexError, d1)
      else (Except.error (PyErr.keyError x), d1)

/-- State-passing view of the binding loop. -/
def bindGoS (asName : Option String) (defaults : List Value) (db : Nat) :
    Nat → List String → Map → Except PyErr (List Value) × Map
  | _, [], d => (Except.ok [], d)
  | i, x :: ks, d =>
    match resolveOneS asName defaults db i x d with
    | (Except.error e, d1) => (Except.error e, d1)
    | (Except.ok v, d1) =>
      match bindGoS asName defaults db (i + 1) ks d1 with
      | (Except.error e, d2) => (Except.error e, d2)
      | (Except.ok vs, d2) => (Except.ok (v :: vs), d2)

/-- State-passing view of the whole wrapper call, returning the input dict
as it stands after the call.  The closure state `w` has no update path at
all: the wrapper only reads `keys`, `defaults`, `splat` and the alias. -/
def FS (w : Wrapped) (f : TargetFn) (d : Map) : Except PyErr Value × Map :=
  match bindGoS w.asName w.defaults (w.keys.length - w.defaults.length) 0 w.keys d with
  | (Except.error e, d1) => (Except.error e, d1)
  | (Except.ok args, d1) =>
    if truthy w.splat then (Except.ok (f args (remainder w.keys d1)), d1)
    else (Except.ok (f args []), d1)

/-- One state-passing iteration returns the pure result and the dict
unchanged. -/
theorem resolveOneS_eq (asName : Option String) (defaults : List Value)
    (db : Nat) (i : Nat) (x : String) (d : Map) :
    resolveOneS asName defaults db i x d =
      (resolveOne asName d defaults db i x, d) := by
  simp only [resolveOneS, resolveOne, dictGetS]
  by_cases ha : aliasMatches asName x = true
  · simp [ha]
  · simp only [ha, Bool.false_eq_true, if_false]
    cases dlookup d x with
    | some v => rfl
    | none =>
      by_cases hdb : db ≤ i
      · simp only [if_pos hdb]
        cases defaults[i - db]? <;> rfl
      · simp only [if_neg hdb]

/-- The state-passing binding loop returns the pure result and the dict
unchanged. -/
theorem bindGoS_eq (asName : Option String) (defaults : List Value)
    (db : Nat) :
    ∀ (ks : List String) (i : Nat) (d : Map),
      bindGoS asName defaults db i ks d =
        (bindGo asName d defaults db i ks, d) := by
  intro ks
  induction ks with
  | nil => intro i d; rfl
  | cons x ks ih =>
    intro i d
    simp only [bindGoS, bindGo, resolveOneS_eq]
    cases resolveOne asName d defaults db i x with
    | error e => rfl
    | ok v =>
      simp only [ih (i + 1) d]
      cases bindGo asName d defaults db (i + 1) ks <;> rfl

/-- C8: the wrapper is pure with respect to the input mapping — the
state-passing call returns the same result as the pure call and leaves the
dict exactly as it was — so invoking it again on the dict it handed back
yields an identical result; the memoized signature data in `Wrapped` has
no update path by construction. -/
theorem c8_pure_idempotent (w : Wrapped) (f : TargetFn) (d : Map) :
    FS w f d = (F w f d, d) ∧
    (FS w f (FS w f d).2).1 = (FS w f d).1 := by
  have h : FS w f d = (F w f d, d) := by
    simp only [FS, F, bindGoS_eq]
    cases bindGo w.asName d w.defaults (w.keys.length - w.defaults.length) 0 w.keys with
    | error e => rfl
    | ok args => cases truthy w.splat <;> rfl
  refine ⟨h, ?_⟩
  simp [h]

/-- C9: `defk('')` captures no target function (the argument is
string-typed) yet takes the direct-wrap branch (the empty string is
falsy), so it hits the unbound local `f`; any non-empty alias string
instead returns the decorator awaiting the target. -/
theorem c9_empty_alias_unbound (s : String) (hs : ¬(s = "")) :
    defk (DefkArg.str "") = ConstructResult.unboundLocalError ∧
    defk (DefkArg.str s) = ConstructResult.awaiting s := by
  refine ⟨rfl, ?_⟩
  simp [defk, hs]

/-- Witness for C9 at the alias string `'z'`. -/
theorem c9_witness :
    defk (DefkArg.str "") = ConstructResult.unboundLocalError ∧
    defk (DefkArg.str "z") = ConstructResult.awaiting "z" :=
  c9_empty_alias_unbound "z" (by decide)

/-- C10: a non-empty alias name matching no declared parameter raises no
error: construction returns the decorator, invocation behaves exactly as
with no alias configured (every parameter resolved by ordinary lookup with
default fallback, no parameter receives the whole mapping), and a mapping
pair whose key equals the alias name stays in the remainder like ordinary
data. -/
theorem c10_unmatched_alias (spec : ArgSpec) (a : String) (f : TargetFn)
    (d : Map) (v : Value)
    (ha : ¬(a = ""))
    (hnot : ¬ a ∈ spec.args) :
    defk (DefkArg.str a) = ConstructResult.awaiting a ∧
    F (applyDecorator (some a) spec) f d = F (applyDecorator none spec) f d ∧
    ((a, v) ∈ d → (a, v) ∈ remainder spec.args d) := by
  refine ⟨by simp [defk, ha], ?_, ?_⟩
  · have hbind : ∀ (ks : List String) (i : Nat),
        (∀ x, x ∈ ks → ¬(x = a)) →
        bindGo (some a) d spec.defaults (spec.args.length - spec.defaults.length) i ks =
          bindGo none d spec.defaults (spec.args.length - spec.defaults.length) i ks := by
      intro ks
      induction ks with
      | nil => intro i _; rfl
      | cons x ks ih =>
        intro i hmem
        have hx : aliasMatches (some a) x = false := by
          simp [aliasMatches]
          intro _
          exact hmem x (by simp)
        simp only [bindGo, resolveOne, hx]
        have hnone : aliasMatches none x = false := rfl
        rw [hnone]
        rw [ih (i + 1) (fun y hy => hmem y (by simp [hy]))]
    simp only [F, applyDecorator]
    rw [hbind spec.args 0 (fun y hy hya => hnot (hya ▸ hy))]
  · intro hmem
    simp only [remainder, List.mem_filter]
    refine ⟨hmem, ?_⟩
    simp
    exact hnot

/-- Witness for C10: alias `'z'` on `def f(x)`, mapping `{x:1, z:7}` — the
call behaves as if no alias were set and `('z', 7)` stays in the
remainder. -/
theorem c10_witness :
    defk (DefkArg.str "z") = ConstructResult.awaiting "z" ∧
    F (applyDecorator (some "z") ⟨["x"], none, some "k", []⟩)
        (fun args rest => Value.vlist [Value.vlist args, Value.vdict rest])
        [("x", Value.vint 1), ("z", Value.vint 7)] =
      F (applyDecorator none ⟨["x"], none, some "k", []⟩)
        (fun args rest => Value.vlist [Value.vlist args, Value.vdict rest])
        [("x", Value.vint 1), ("z", Value.vint 7)] ∧
    (("z", Value.vint 7) ∈
        ([("x", Value.vint 1), ("z", Value.vint 7)] : Map) →
      ("z", Value.vint 7) ∈
        remainder ["x"] [("x", Value.vint 1), ("z", Value.vint 7)]) :=
  c10_unmatched_alias ⟨["x"], none, some "k", []⟩ "z"
    (fun args rest => Value.vlist [Value.vlist args, Value.vdict rest])
    [("x", Value.vint 1), ("z", Value.vint 7)] (Value.vint 7)
    (by decide) (by decide)

/-- The argspec of `test_complex` (source lines 171-183):
parameters `(a, c, whole, r=101, **k)`. -/
def complexSpec : ArgSpec :=
  { args := ["a", "c", "whole", "r"], varargs := none
    keywords := some "k", defaults := [Value.vint 101] }

/-- The input mapping `{'a': 1, 'c': 5, 'f': 9}` of the `test_complex`
doctest. -/
def complexMap : Map :=
  [("a", Value.vint 1), ("c", Value.vint 5), ("f", Value.vint 9)]

/-- C7: adapting `test_complex(a, c, whole, r=101, **k)` with alias
`'whole'` and invoking on `{a:1, c:5, f:9}` calls the target with
`a=1, c=5, whole =` the whole mapping, `r=101`, `k={f:9}`. -/
theorem c7_complex_scenario :
    defk (DefkArg.str "whole") = ConstructResult.awaiting "whole" ∧
    F (applyDecorator (some "whole") complexSpec)
        (fun args rest => Value.vlist (args ++ [Value.vdict rest])) complexMap =
      Except.ok (Value.vlist
        [Value.vint 1, Value.vint 5, Value.vdict complexMap,
         Value.vint 101, Value.vdict [("f", Value.vint 9)]]) :=
  ⟨rfl, rfl⟩

end Defk
